import Mathlib

/-!
Verification of the contact-allocation core of `Add-Email-App/app.py`.

The program reads contact rows from a spreadsheet, partitions them across a
sequence of (list id, quota) pairs, calls a remote upsert endpoint once per
assigned contact, overwrites the source sheet with the retained rows and
appends the successfully processed rows to a destination sheet.

Embedding conventions:
* a Python `dict[str, str]` row becomes an association list `Record` with
  `Record.get` modelling `row.get(k, "")` and `Record.set` modelling
  `row[k] = v` (replace the value of an existing key in place, otherwise
  insert at the end — Python dict assignment semantics);
* the remote upsert capability is an explicit function argument
  `u : String → String → List (String × String) → Except String String`
  (email, list id, field values); `Except.error e` models the exception
  raised by `upsert_contact_in_bigmailer`, whose message is `e`;
* `datetime.datetime.now().strftime('%Y-%m-%d')` becomes the parameter
  `today : String`;
* the `while allocated < count and idx < len(unprocessed)` loop of
  `process_contacts` becomes `processList` (one allocation pair), the outer
  `for list_id, count in allocations.items()` loop becomes
  `processAllocations`, and `allocate` packages the record-level run result
  (processed partition, retained partition including leftover rows).
-/

/-- Python `str.strip()`: remove leading and trailing whitespace.  Defined
over `String.data` so that proofs can evaluate it inside the kernel. -/
def pyStrip (s : String) : String :=
  ⟨((s.data.dropWhile Char.isWhitespace).reverse.dropWhile Char.isWhitespace).reverse⟩

/-- Python `str.startswith(pre)`, defined over `String.data`. -/
def pyStartsWith (s pre : String) : Bool :=
  pre.data.isPrefixOf s.data

/-- A contact record: a Python `dict[str, str]` as an association list. -/
abbrev Record := List (String × String)

namespace Record

/-- `row.get(k, "")`: value of the first entry with key `k`, `""` if absent. -/
def get : Record → String → String
  | [], _ => ""
  | p :: rest, k => if p.1 = k then p.2 else get rest k

/-- `row[k] = v`: replace the value of an existing key, else insert at the end. -/
def set : Record → String → String → Record
  | [], k, v => [(k, v)]
  | p :: rest, k, v => if p.1 = k then (k, v) :: rest else p :: set rest k v

end Record

/-- Status text for a skipped (no email) record — `app.py` line 154. -/
def skipMsg : String := "Skipped: No Email"

/-- Status text for a successful upsert — `app.py` line 179. -/
def successMsg (today lid : String) : String :=
  "Successfully added on " ++ today ++ " to " ++ lid

/-- Status text for a failed upsert — `app.py` line 186. -/
def errorMsg (e : String) : String := "Error: " ++ e

/-- `field_values` built from the non-empty trimmed `First Name`, `Last Name`
and `Tags` fields — `app.py` lines 159–169. -/
def buildFieldValues (r : Record) : List (String × String) :=
  (if pyStrip (Record.get r "First Name") = "" then []
   else [("first_name", pyStrip (Record.get r "First Name"))]) ++
  (if pyStrip (Record.get r "Last Name") = "" then []
   else [("last_name", pyStrip (Record.get r "Last Name"))]) ++
  (if pyStrip (Record.get r "Tags") = "" then []
   else [("tags", pyStrip (Record.get r "Tags"))])

/-- The inner `while allocated < count and idx < len(unprocessed)` loop of
`process_contacts` (`app.py` lines 148–191) for one `(list_id, count)` pair.

Returns `(remaining, processed, retained)`: the records left under the
cursor, the records appended to `processed_rows_data` (kept at record level
here; serialization happens in `process_contacts`), and the records appended
to `updated_rows_source`, each in consumption order.  Note that the
`continue` in the empty-email branch skips the `allocated += 1` line, so a
skipped record advances the cursor without counting toward `count`. -/
def processList (u : String → String → List (String × String) → Except String String)
    (lid today : String) (count : Nat) :
    Nat → List Record → List Record × List Record × List Record
  | _, [] => ([], [], [])
  | a, r :: rest =>
    if a < count then
      if pyStrip (Record.get r "Email") = "" then
        ((processList u lid today count a rest).1,
         (processList u lid today count a rest).2.1,
         Record.set r "Status" skipMsg :: (processList u lid today count a rest).2.2)
      else
        match u (pyStrip (Record.get r "Email")) lid (buildFieldValues r) with
        | Except.ok _ =>
          ((processList u lid today count (a + 1) rest).1,
           Record.set r "Status" (successMsg today lid) ::
             (processList u lid today count (a + 1) rest).2.1,
           (processList u lid today count (a + 1) rest).2.2)
        | Except.error e =>
          ((processList u lid today count (a + 1) rest).1,
           (processList u lid today count (a + 1) rest).2.1,
           Record.set r "Status" (errorMsg e) ::
             (processList u lid today count (a + 1) rest).2.2)
    else (r :: rest, [], [])

/-- The outer `for list_id, count in allocations.items()` loop
(`app.py` lines 144–191); the cursor (`idx`) persists across pairs. -/
def processAllocations (u : String → String → List (String × String) → Except String String)
    (today : String) :
    List (String × Nat) → List Record → List Record × List Record × List Record
  | [], q => (q, [], [])
  | (lid, c) :: rest, q =>
    ((processAllocations u today rest (processList u lid today c 0 q).1).1,
     (processList u lid today c 0 q).2.1 ++
       (processAllocations u today rest (processList u lid today c 0 q).1).2.1,
     (processList u lid today c 0 q).2.2 ++
       (processAllocations u today rest (processList u lid today c 0 q).1).2.2)

/-- Record-level run result of one allocation run over an already-filtered
queue: `(processed, retained)`, where `retained` is `updated_rows_source`
after the leftover loop of `app.py` lines 194–196 appended the records still
under the cursor. -/
def allocate (u : String → String → List (String × String) → Except String String)
    (today : String) (allocs : List (String × Nat)) (q : List Record) :
    List Record × List Record :=
  ((processAllocations u today allocs q).2.1,
   (processAllocations u today allocs q).2.2 ++ (processAllocations u today allocs q).1)

/-- The precondition filter of `app.py` lines 134–137: keep rows whose
`Status` does not begin with "Successfully added". -/
def keepRow (r : Record) : Bool :=
  !(pyStartsWith (Record.get r "Status") "Successfully added")

/-- Serialize a record in header order — `[row_dict.get(h, "") for h in headers]`
(`app.py` lines 182 and 201). -/
def serializeRow (headers : List String) (r : Record) : List String :=
  headers.map (fun h => Record.get r h)

/-- `process_contacts` (`app.py` lines 113–211), with the spreadsheet and
HTTP I/O abstracted: given the rows read from the source sheet, returns
`none` when the early `if not rows: return` fires (no write happens), else
`some (processed_rows_data, new_source_data)` — the rows appended to the
target sheet and the data rows written over the source sheet. -/
def process_contacts (u : String → String → List (String × String) → Except String String)
    (today : String) (headers : List String) (rows : List Record)
    (allocs : List (String × Nat)) :
    Option (List (List String) × List (List String)) :=
  if rows = [] then none
  else
    some ((allocate u today allocs (rows.filter keepRow)).1.map (serializeRow headers),
          (allocate u today allocs (rows.filter keepRow)).2.map (serializeRow headers))

/-- An HTTP response as seen by `upsert_contact_in_bigmailer`. -/
structure HttpResponse where
  status_code : Nat
  text : String
  json : String
deriving DecidableEq

/-- The response handling of `upsert_contact_in_bigmailer`
(`app.py` lines 106–110): return the parsed body on status 200, otherwise
raise `Exception(f"Upsert failed with {status}: {text}")`. -/
def upsert_contact_in_bigmailer (resp : HttpResponse) : Except String String :=
  if resp.status_code = 200 then Except.ok resp.json
  else Except.error ("Upsert failed with " ++ toString resp.status_code ++ ": " ++ resp.text)

/-- An upsert capability that succeeds on every call it receives. -/
def uOk : String → String → List (String × String) → Except String String :=
  fun _ _ _ => Except.ok ""

/-- An upsert capability that fails exactly on the email `b@x.com`. -/
def uFailB : String → String → List (String × String) → Except String String :=
  fun e _ _ => if e = "b@x.com" then Except.error "boom" else Except.ok ""

/-- A record with its `Status` entry removed (used to state which part of a
record the allocator may change). -/
def stripStatus (r : Record) : Record :=
  r.filter (fun p => !(p.1 == "Status"))

/-- `r'` is `r` with at most the `Status` field rewritten. -/
def statusEdit (r r' : Record) : Prop :=
  r' = r ∨ ∃ v, r' = Record.set r "Status" v

/-- Bool test: the record has a non-empty trimmed `Email` field. -/
def hasEmail (r : Record) : Bool :=
  !(pyStrip (Record.get r "Email") == "")

theorem Record.get_set_self (r : Record) (k v : String) :
    Record.get (Record.set r k v) k = v := by
  induction r with
  | nil => simp [Record.get, Record.set]
  | cons p rest ih =>
    by_cases h : p.1 = k
    · simp [Record.set, h, Record.get]
    · simp [Record.set, h, Record.get, ih]

theorem Record.get_set_ne (r : Record) (k k' v : String) (h : ¬ k' = k) :
    Record.get (Record.set r k v) k' = Record.get r k' := by
  have h2 : ¬ k = k' := fun e => h e.symm
  induction r with
  | nil => simp [Record.get, Record.set, h2]
  | cons p rest ih =>
    by_cases hp : p.1 = k
    · have hp' : ¬ p.1 = k' := by rw [hp]; exact h2
      simp [Record.set, hp, Record.get, h2, hp']
    · simp [Record.set, hp, Record.get, ih]

theorem stripStatus_set (r : Record) (v : String) :
    stripStatus (Record.set r "Status" v) = stripStatus r := by
  induction r with
  | nil => simp [stripStatus, Record.set]
  | cons p rest ih =>
    by_cases hp : p.1 = "Status"
    · simp [stripStatus, Record.set, hp, List.filter_cons]
    · simpa [stripStatus, Record.set, hp, List.filter_cons] using ih

theorem statusEdit_refl (r : Record) : statusEdit r r := Or.inl rfl

theorem statusEdit_set (r : Record) (v : String) :
    statusEdit r (Record.set r "Status" v) := Or.inr ⟨v, rfl⟩

theorem hasEmail_set_status (r : Record) (v : String) :
    hasEmail (Record.set r "Status" v) = hasEmail r := by
  simp [hasEmail, Record.get_set_ne r "Status" "Email" v (by decide)]

theorem processList_length (u : String → String → List (String × String) → Except String String)
    (lid today : String) (c : Nat) (q : List Record) :
    ∀ a : Nat,
      (processList u lid today c a q).1.length + (processList u lid today c a q).2.1.length +
        (processList u lid today c a q).2.2.length = q.length := by
  induction q with
  | nil => intro a; simp [processList]
  | cons r rest ih =>
    intro a
    by_cases h1 : a < c
    · by_cases h2 : pyStrip (Record.get r "Email") = ""
      · have := ih a
        simp only [processList, if_pos h1, if_pos h2, List.length_cons]
        omega
      · cases hu : u (pyStrip (Record.get r "Email")) lid (buildFieldValues r) with
        | ok v =>
          have := ih (a + 1)
          simp only [processList, if_pos h1, if_neg h2, hu, List.length_cons]
          omega
        | error e =>
          have := ih (a + 1)
          simp only [processList, if_pos h1, if_neg h2, hu, List.length_cons]
          omega
    · simp [processList, if_neg h1]

theorem processList_zero (u : String → String → List (String × String) → Except String String)
    (lid today : String) (a : Nat) (q : List Record) :
    processList u lid today 0 a q = (q, [], []) := by
  cases q with
  | nil => simp [processList]
  | cons r rest => simp [processList]

theorem processList_congr (u u' : String → String → List (String × String) → Except String String)
    (h : ∀ e l f, ¬ e = "" → u e l f = u' e l f) (lid today : String) (c : Nat)
    (q : List Record) :
    ∀ a : Nat, processList u lid today c a q = processList u' lid today c a q := by
  induction q with
  | nil => intro a; simp [processList]
  | cons r rest ih =>
    intro a
    by_cases h1 : a < c
    · by_cases h2 : pyStrip (Record.get r "Email") = ""
      · simp only [processList, if_pos h1, if_pos h2, ih a]
      · have hu := h (pyStrip (Record.get r "Email")) lid (buildFieldValues r) h2
        simp only [processList, if_pos h1, if_neg h2, hu, ih (a + 1)]
    · simp [processList, if_neg h1]

theorem processList_processed_email
    (u : String → String → List (String × String) → Except String String)
    (lid today : String) (c : Nat) (q : List Record) :
    ∀ a : Nat, ∀ r' ∈ (processList u lid today c a q).2.1,
      ¬ pyStrip (Record.get r' "Email") = "" := by
  induction q with
  | nil => intro a r' hr'; simp [processList] at hr'
  | cons r rest ih =>
    intro a r' hr'
    by_cases h1 : a < c
    · by_cases h2 : pyStrip (Record.get r "Email") = ""
      · simp only [processList, if_pos h1, if_pos h2] at hr'
        exact ih a r' hr'
      · cases hu : u (pyStrip (Record.get r "Email")) lid (buildFieldValues r) with
        | ok v =>
          simp only [processList, if_pos h1, if_neg h2, hu, List.mem_cons] at hr'
          rcases hr' with hr' | hr'
          · rw [hr', Record.get_set_ne r "Status" "Email" _ (by decide)]
            exact h2
          · exact ih (a + 1) r' hr'
        | error e =>
          simp only [processList, if_pos h1, if_neg h2, hu] at hr'
          exact ih (a + 1) r' hr'
    · simp [processList, if_neg h1] at hr'

theorem processList_retained_skip
    (u : String → String → List (String × String) → Except String String)
    (lid today : String) (c : Nat) (q : List Record) :
    ∀ a : Nat, ∀ r' ∈ (processList u lid today c a q).2.2,
      pyStrip (Record.get r' "Email") = "" → Record.get r' "Status" = skipMsg := by
  induction q with
  | nil => intro a r' hr'; simp [processList] at hr'
  | cons r rest ih =>
    intro a r' hr'
    by_cases h1 : a < c
    · by_cases h2 : pyStrip (Record.get r "Email") = ""
      · simp only [processList, if_pos h1, if_pos h2, List.mem_cons] at hr'
        rcases hr' with hr' | hr'
        · intro _; rw [hr', Record.get_set_self]
        · exact ih a r' hr'
      · cases hu : u (pyStrip (Record.get r "Email")) lid (buildFieldValues r) with
        | ok v =>
          simp only [processList, if_pos h1, if_neg h2, hu] at hr'
          exact ih (a + 1) r' hr'
        | error e =>
          simp only [processList, if_pos h1, if_neg h2, hu, List.mem_cons] at hr'
          rcases hr' with hr' | hr'
          · intro hemp
            rw [hr', Record.get_set_ne r "Status" "Email" _ (by decide)] at hemp
            exact absurd hemp h2
          · exact ih (a + 1) r' hr'
    · simp [processList, if_neg h1] at hr'

theorem processList_quota (u : String → String → List (String × String) → Except String String)
    (lid today : String) (c : Nat) (q : List Record) :
    ∀ a : Nat, a ≤ c →
      (processList u lid today c a q).2.1.length +
        (processList u lid today c a q).2.2.countP hasEmail + a ≤ c := by
  induction q with
  | nil => intro a ha; simpa [processList] using ha
  | cons r rest ih =>
    intro a ha
    by_cases h1 : a < c
    · by_cases h2 : pyStrip (Record.get r "Email") = ""
      · have hr : hasEmail r = false := by simp [hasEmail, h2]
        have := ih a ha
        simp only [processList, if_pos h1, if_pos h2, List.countP_cons, hasEmail_set_status, hr,
          Bool.false_eq_true, if_false]
        omega
      · cases hu : u (pyStrip (Record.get r "Email")) lid (buildFieldValues r) with
        | ok v =>
          have := ih (a + 1) h1
          simp only [processList, if_pos h1, if_neg h2, hu, List.length_cons]
          omega
        | error e =>
          have hr : hasEmail r = true := by simp [hasEmail, h2]
          have := ih (a + 1) h1
          simp only [processList, if_pos h1, if_neg h2, hu, List.countP_cons, hasEmail_set_status,
            hr, if_true]
          omega
    · simpa [processList, if_neg h1] using ha

theorem processList_split (u : String → String → List (String × String) → Except String String)
    (lid today : String) (c : Nat) (q : List Record) :
    ∀ a : Nat, ∃ pre : List Record,
      q = pre ++ (processList u lid today c a q).1 ∧
      (pre.map stripStatus).Perm
        ((processList u lid today c a q).2.1.map stripStatus ++
          (processList u lid today c a q).2.2.map stripStatus) := by
  induction q with
  | nil => intro a; exact ⟨[], by simp [processList], by simp [processList]⟩
  | cons r rest ih =>
    intro a
    by_cases h1 : a < c
    · by_cases h2 : pyStrip (Record.get r "Email") = ""
      · obtain ⟨pre, hsplit, hperm⟩ := ih a
        refine ⟨r :: pre, ?_, ?_⟩
        · simp only [processList, if_pos h1, if_pos h2, List.cons_append]
          exact congrArg (List.cons r) hsplit
        · simp only [processList, if_pos h1, if_pos h2, List.map_cons, stripStatus_set]
          exact (hperm.cons _).trans List.perm_middle.symm
      · cases hu : u (pyStrip (Record.get r "Email")) lid (buildFieldValues r) with
        | ok v =>
          obtain ⟨pre, hsplit, hperm⟩ := ih (a + 1)
          refine ⟨r :: pre, ?_, ?_⟩
          · simp only [processList, if_pos h1, if_neg h2, hu, List.cons_append]
            exact congrArg (List.cons r) hsplit
          · simp only [processList, if_pos h1, if_neg h2, hu, List.map_cons, stripStatus_set,
              List.cons_append]
            exact hperm.cons _
        | error e =>
          obtain ⟨pre, hsplit, hperm⟩ := ih (a + 1)
          refine ⟨r :: pre, ?_, ?_⟩
          · simp only [processList, if_pos h1, if_neg h2, hu, List.cons_append]
            exact congrArg (List.cons r) hsplit
          · simp only [processList, if_pos h1, if_neg h2, hu, List.map_cons, stripStatus_set]
            exact (hperm.cons _).trans List.perm_middle.symm
    · exact ⟨[], by simp [processList, if_neg h1], by simp [processList, if_neg h1]⟩

theorem processList_sub (u : String → String → List (String × String) → Except String String)
    (lid today : String) (c : Nat) (q : List Record) :
    ∀ a : Nat, ∃ pre sub : List Record,
      q = pre ++ (processList u lid today c a q).1 ∧ sub.Sublist pre ∧
      List.Forall₂ statusEdit sub (processList u lid today c a q).2.2 := by
  induction q with
  | nil => intro a; exact ⟨[], [], by simp [processList], by simp, by simp [processList]⟩
  | cons r rest ih =>
    intro a
    by_cases h1 : a < c
    · by_cases h2 : pyStrip (Record.get r "Email") = ""
      · obtain ⟨pre, sub, hsplit, hsub, hfa⟩ := ih a
        refine ⟨r :: pre, r :: sub, ?_, hsub.cons₂ r, ?_⟩
        · simp only [processList, if_pos h1, if_pos h2, List.cons_append]
          exact congrArg (List.cons r) hsplit
        · simp only [processList, if_pos h1, if_pos h2]
          exact List.Forall₂.cons (statusEdit_set r skipMsg) hfa
      · cases hu : u (pyStrip (Record.get r "Email")) lid (buildFieldValues r) with
        | ok v =>
          obtain ⟨pre, sub, hsplit, hsub, hfa⟩ := ih (a + 1)
          refine ⟨r :: pre, sub, ?_, hsub.cons r, ?_⟩
          · simp only [processList, if_pos h1, if_neg h2, hu, List.cons_append]
            exact congrArg (List.cons r) hsplit
          · simp only [processList, if_pos h1, if_neg h2, hu]
            exact hfa
        | error e =>
          obtain ⟨pre, sub, hsplit, hsub, hfa⟩ := ih (a + 1)
          refine ⟨r :: pre, r :: sub, ?_, hsub.cons₂ r, ?_⟩
          · simp only [processList, if_pos h1, if_neg h2, hu, List.cons_append]
            exact congrArg (List.cons r) hsplit
          · simp only [processList, if_pos h1, if_neg h2, hu]
            exact List.Forall₂.cons (statusEdit_set r (errorMsg e)) hfa
    · exact ⟨[], [], by simp [processList, if_neg h1], by simp, by simp [processList, if_neg h1]⟩

theorem processList_mem (u : String → String → List (String × String) → Except String String)
    (lid today : String) (c : Nat) (q : List Record) :
    ∀ a : Nat, ∀ r' : Record,
      (r' ∈ (processList u lid today c a q).2.1 ∨ r' ∈ (processList u lid today c a q).2.2) →
      ∃ r, r ∈ q ∧ ∃ v, r' = Record.set r "Status" v := by
  induction q with
  | nil => intro a r' hr'; simp [processList] at hr'
  | cons r rest ih =>
    intro a r' hr'
    by_cases h1 : a < c
    · by_cases h2 : pyStrip (Record.get r "Email") = ""
      · simp only [processList, if_pos h1, if_pos h2, List.mem_cons] at hr'
        rcases hr' with hr' | (hr' | hr')
        · obtain ⟨r0, hr0, hv⟩ := ih a r' (Or.inl hr')
          exact ⟨r0, List.mem_cons_of_mem r hr0, hv⟩
        · exact ⟨r, List.mem_cons_self r rest, skipMsg, hr'⟩
        · obtain ⟨r0, hr0, hv⟩ := ih a r' (Or.inr hr')
          exact ⟨r0, List.mem_cons_of_mem r hr0, hv⟩
      · cases hu : u (pyStrip (Record.get r "Email")) lid (buildFieldValues r) with
        | ok v =>
          simp only [processList, if_pos h1, if_neg h2, hu, List.mem_cons] at hr'
          rcases hr' with (hr' | hr') | hr'
          · exact ⟨r, List.mem_cons_self r rest, successMsg today lid, hr'⟩
          · obtain ⟨r0, hr0, hv⟩ := ih (a + 1) r' (Or.inl hr')
            exact ⟨r0, List.mem_cons_of_mem r hr0, hv⟩
          · obtain ⟨r0, hr0, hv⟩ := ih (a + 1) r' (Or.inr hr')
            exact ⟨r0, List.mem_cons_of_mem r hr0, hv⟩
        | error e =>
          simp only [processList, if_pos h1, if_neg h2, hu, List.mem_cons] at hr'
          rcases hr' with hr' | (hr' | hr')
          · obtain ⟨r0, hr0, hv⟩ := ih (a + 1) r' (Or.inl hr')
            exact ⟨r0, List.mem_cons_of_mem r hr0, hv⟩
          · exact ⟨r, List.mem_cons_self r rest, errorMsg e, hr'⟩
          · obtain ⟨r0, hr0, hv⟩ := ih (a + 1) r' (Or.inr hr')
            exact ⟨r0, List.mem_cons_of_mem r hr0, hv⟩
    · simp [processList, if_neg h1] at hr'

theorem perm_append_swap (a b c d : List Record) :
    ((a ++ b) ++ (c ++ d)).Perm ((a ++ c) ++ (b ++ d)) := by
  have hinner : (b ++ (c ++ d)).Perm (c ++ (b ++ d)) := by
    have h1 : (b ++ (c ++ d)).Perm ((c ++ b) ++ d) := by
      rw [← List.append_assoc]
      exact List.perm_append_comm.append_right d
    rw [List.append_assoc] at h1
    exact h1
  simpa only [List.append_assoc] using hinner.append_left a

theorem processAllocations_length
    (u : String → String → List (String × String) → Except String String)
    (today : String) (allocs : List (String × Nat)) :
    ∀ q : List Record,
      (processAllocations u today allocs q).1.length +
        (processAllocations u today allocs q).2.1.length +
        (processAllocations u today allocs q).2.2.length = q.length := by
  induction allocs with
  | nil => intro q; simp [processAllocations]
  | cons hd rest ih =>
    intro q
    obtain ⟨lid, c⟩ := hd
    have h1 := processList_length u lid today c q 0
    have h2 := ih (processList u lid today c 0 q).1
    simp only [processAllocations, List.length_append]
    omega

theorem processAllocations_split
    (u : String → String → List (String × String) → Except String String)
    (today : String) (allocs : List (String × Nat)) :
    ∀ q : List Record, ∃ pre : List Record,
      q = pre ++ (processAllocations u today allocs q).1 ∧
      (pre.map stripStatus).Perm
        ((processAllocations u today allocs q).2.1.map stripStatus ++
          (processAllocations u today allocs q).2.2.map stripStatus) := by
  induction allocs with
  | nil => intro q; exact ⟨[], by simp [processAllocations], by simp [processAllocations]⟩
  | cons hd rest ih =>
    intro q
    obtain ⟨lid, c⟩ := hd
    obtain ⟨pre1, hsplit1, hperm1⟩ := processList_split u lid today c q 0
    obtain ⟨pre2, hsplit2, hperm2⟩ := ih (processList u lid today c 0 q).1
    refine ⟨pre1 ++ pre2, ?_, ?_⟩
    · simp only [processAllocations]
      rw [List.append_assoc, ← hsplit2, ← hsplit1]
    · simp only [processAllocations, List.map_append]
      exact ((hperm1.append hperm2).trans (perm_append_swap _ _ _ _))

theorem processAllocations_sub
    (u : String → String → List (String × String) → Except String String)
    (today : String) (allocs : List (String × Nat)) :
    ∀ q : List Record, ∃ pre sub : List Record,
      q = pre ++ (processAllocations u today allocs q).1 ∧ sub.Sublist pre ∧
      List.Forall₂ statusEdit sub (processAllocations u today allocs q).2.2 := by
  induction allocs with
  | nil =>
    intro q
    exact ⟨[], [], by simp [processAllocations], by simp, by simp [processAllocations]⟩
  | cons hd rest ih =>
    intro q
    obtain ⟨lid, c⟩ := hd
    obtain ⟨pre1, sub1, hsplit1, hsub1, hfa1⟩ := processList_sub u lid today c q 0
    obtain ⟨pre2, sub2, hsplit2, hsub2, hfa2⟩ := ih (processList u lid today c 0 q).1
    refine ⟨pre1 ++ pre2, sub1 ++ sub2, ?_, hsub1.append hsub2, ?_⟩
    · simp only [processAllocations]
      rw [List.append_assoc, ← hsplit2, ← hsplit1]
    · simp only [processAllocations]
      exact List.rel_append hfa1 hfa2

theorem processAllocations_mem
    (u : String → String → List (String × String) → Except String String)
    (today : String) (allocs : List (String × Nat)) :
    ∀ q : List Record, ∀ r' : Record,
      (r' ∈ (processAllocations u today allocs q).2.1 ∨
        r' ∈ (processAllocations u today allocs q).2.2) →
      ∃ r, r ∈ q ∧ ∃ v, r' = Record.set r "Status" v := by
  induction allocs with
  | nil => intro q r' hr'; simp [processAllocations] at hr'
  | cons hd rest ih =>
    intro q r' hr'
    obtain ⟨lid, c⟩ := hd
    obtain ⟨pre1, hsplit1, -⟩ := processList_split u lid today c q 0
    simp only [processAllocations, List.mem_append] at hr'
    have hsuffix : ∀ r0, r0 ∈ (processList u lid today c 0 q).1 → r0 ∈ q := by
      intro r0 h0
      rw [hsplit1]
      exact List.mem_append_right pre1 h0
    rcases hr' with (h | h) | (h | h)
    · exact processList_mem u lid today c q 0 r' (Or.inl h)
    · obtain ⟨r0, hr0, hv⟩ := ih (processList u lid today c 0 q).1 r' (Or.inl h)
      exact ⟨r0, hsuffix r0 hr0, hv⟩
    · exact processList_mem u lid today c q 0 r' (Or.inr h)
    · obtain ⟨r0, hr0, hv⟩ := ih (processList u lid today c 0 q).1 r' (Or.inr h)
      exact ⟨r0, hsuffix r0 hr0, hv⟩

theorem processAllocations_zero
    (u : String → String → List (String × String) → Except String String)
    (today : String) (allocs : List (String × Nat)) (hz : ∀ p ∈ allocs, p.2 = 0) :
    ∀ q : List Record, processAllocations u today allocs q = (q, [], []) := by
  induction allocs with
  | nil => intro q; simp [processAllocations]
  | cons hd rest ih =>
    intro q
    obtain ⟨lid, c⟩ := hd
    have hc : c = 0 := hz (lid, c) (List.mem_cons_self _ _)
    have ihz : ∀ p ∈ rest, p.2 = 0 := fun p hp => hz p (List.mem_cons_of_mem _ hp)
    simp only [processAllocations, hc, processList_zero, ih ihz, List.append_nil]

theorem processAllocations_congr
    (u u' : String → String → List (String × String) → Except String String)
    (h : ∀ e l f, ¬ e = "" → u e l f = u' e l f) (today : String)
    (allocs : List (String × Nat)) :
    ∀ q : List Record, processAllocations u today allocs q = processAllocations u' today allocs q := by
  induction allocs with
  | nil => intro q; simp [processAllocations]
  | cons hd rest ih =>
    intro q
    obtain ⟨lid, c⟩ := hd
    simp only [processAllocations, processList_congr u u' h lid today c q 0,
      ih (processList u' lid today c 0 q).1]

theorem processAllocations_processed_email
    (u : String → String → List (String × String) → Except String String)
    (today : String) (allocs : List (String × Nat)) :
    ∀ q : List Record, ∀ r' ∈ (processAllocations u today allocs q).2.1,
      ¬ pyStrip (Record.get r' "Email") = "" := by
  induction allocs with
  | nil => intro q r' hr'; simp [processAllocations] at hr'
  | cons hd rest ih =>
    intro q r' hr'
    obtain ⟨lid, c⟩ := hd
    simp only [processAllocations, List.mem_append] at hr'
    rcases hr' with h | h
    · exact processList_processed_email u lid today c q 0 r' h
    · exact ih (processList u lid today c 0 q).1 r' h

theorem processAllocations_retained_skip
    (u : String → String → List (String × String) → Except String String)
    (today : String) (allocs : List (String × Nat)) :
    ∀ q : List Record, ∀ r' ∈ (processAllocations u today allocs q).2.2,
      pyStrip (Record.get r' "Email") = "" → Record.get r' "Status" = skipMsg := by
  induction allocs with
  | nil => intro q r' hr'; simp [processAllocations] at hr'
  | cons hd rest ih =>
    intro q r' hr'
    obtain ⟨lid, c⟩ := hd
    simp only [processAllocations, List.mem_append] at hr'
    rcases hr' with h | h
    · exact processList_retained_skip u lid today c q 0 r' h
    · exact ih (processList u lid today c 0 q).1 r' h

/-- C1: the claim states that every record consumed while processing a
(list id, quota) pair counts toward that pair's quota regardless of outcome,
so the records consumed for one list never exceed its quota.  This is false
on the code: the empty-email `continue` bypasses `allocated += 1`, so with
quota 1 the queue `[{Email: ""}, {Email: "a@x.com"}]` is consumed entirely
(2 records) while processing the single pair. -/
theorem consumed_exceeds_quota_cex :
    (processList uOk "ListX" "2026-10-12" 1 0 [[("Email", "")], [("Email", "a@x.com")]]).1.length
        = 0 ∧
    ¬ ([[("Email", "")], [("Email", "a@x.com")]] : List Record).length -
        (processList uOk "ListX" "2026-10-12" 1 0
          [[("Email", "")], [("Email", "a@x.com")]]).1.length ≤ 1 := by
  decide

/-- C1 (amended): only the consumed records that are actually submitted to
the upsert capability (success or failure, i.e. those with a non-empty
trimmed email) count toward a pair's quota, and their number never exceeds
the quota; a record skipped for missing email advances the cursor without
counting.  Starting from `allocated = a ≤ count`, the records placed in
`processed` plus the retained records with a non-empty email plus `a` stay
within `count`. -/
theorem quota_respects_upsert_attempts
    (u : String → String → List (String × String) → Except String String)
    (lid today : String) (c : Nat) (q : List Record) (a : Nat) (ha : a ≤ c) :
    (processList u lid today c a q).2.1.length +
      (processList u lid today c a q).2.2.countP hasEmail + a ≤ c :=
  processList_quota u lid today c q a ha

theorem quota_respects_upsert_attempts_witness :
    (0 : Nat) ≤ 1 ∧
    (processList uOk "ListX" "2026-10-12" 1 0 [[("Email", "")], [("Email", "a@x.com")]]).2.1.length +
      (processList uOk "ListX" "2026-10-12" 1 0
        [[("Email", "")], [("Email", "a@x.com")]]).2.2.countP hasEmail + 0 ≤ 1 :=
  ⟨by decide,
    quota_respects_upsert_attempts uOk "ListX" "2026-10-12" 1
      [[("Email", "")], [("Email", "a@x.com")]] 0 (by decide)⟩

/-- C5: the claim states the upsert call fails iff the HTTP status is not
2xx.  This is false on the code: `upsert_contact_in_bigmailer` treats only
status 200 as success, so the 2xx status 201 is reported as a failure. -/
theorem upsert_2xx_cex :
    upsert_contact_in_bigmailer ⟨201, "body text", "parsed"⟩ =
        Except.error "Upsert failed with 201: body text" ∧
    200 ≤ 201 ∧ 201 < 300 :=
  ⟨rfl, by decide⟩

/-- C5 (amended): the upsert call succeeds (returning the parsed body) iff
the HTTP status is exactly 200; any other status — including other 2xx
statuses — is a failure whose reason carries the status code and body
text. -/
theorem upsert_success_iff_200 (resp : HttpResponse) :
    (resp.status_code = 200 → upsert_contact_in_bigmailer resp = Except.ok resp.json) ∧
    (¬ resp.status_code = 200 →
      upsert_contact_in_bigmailer resp =
        Except.error ("Upsert failed with " ++ toString resp.status_code ++ ": " ++ resp.text)) := by
  constructor
  · intro h; simp [upsert_contact_in_bigmailer, h]
  · intro h; simp [upsert_contact_in_bigmailer, h]

theorem upsert_success_iff_200_witness :
    upsert_contact_in_bigmailer ⟨200, "t", "parsed"⟩ = Except.ok "parsed" ∧
    upsert_contact_in_bigmailer ⟨404, "missing", "x"⟩ =
      Except.error "Upsert failed with 404: missing" :=
  ⟨(upsert_success_iff_200 ⟨200, "t", "parsed"⟩).1 (by decide),
    by
      have h := (upsert_success_iff_200 ⟨404, "missing", "x"⟩).2 (by decide)
      simpa using h⟩

/-- C8: if every quota in the allocation request is 0, then `processed` is
empty and `retained` is the original queue, unchanged and in order. -/
theorem zero_quota_identity
    (u : String → String → List (String × String) → Except String String)
    (today : String) (allocs : List (String × Nat)) (q : List Record)
    (hz : ∀ p ∈ allocs, p.2 = 0) :
    allocate u today allocs q = ([], q) := by
  simp [allocate, processAllocations_zero u today allocs hz q]

theorem zero_quota_identity_witness :
    allocate uOk "2026-10-12" [("L1", 0), ("L2", 0)]
        [[("Email", "a@x.com")], [("Email", "")]] =
      ([], [[("Email", "a@x.com")], [("Email", "")]]) :=
  zero_quota_identity uOk "2026-10-12" [("L1", 0), ("L2", 0)]
    [[("Email", "a@x.com")], [("Email", "")]] (by decide)

theorem processAllocations_perm_full
    (u : String → String → List (String × String) → Except String String)
    (today : String) (allocs : List (String × Nat)) (q : List Record) :
    (q.map stripStatus).Perm
      ((processAllocations u today allocs q).2.1.map stripStatus ++
        ((processAllocations u today allocs q).2.2 ++
          (processAllocations u today allocs q).1).map stripStatus) := by
  obtain ⟨pre, hsplit, hperm⟩ := processAllocations_split u today allocs q
  have h1 : (q.map stripStatus).Perm
      (pre.map stripStatus ++ (processAllocations u today allocs q).1.map stripStatus) := by
    conv_lhs => rw [hsplit]
    rw [List.map_append]
  have h2 := hperm.append_right ((processAllocations u today allocs q).1.map stripStatus)
  refine h1.trans (h2.trans ?_)
  rw [List.map_append, List.append_assoc]

/-- C2: the spec's end-to-end scenario expects, for the queue
`[{Email: "a@x.com"}, {Email: ""}, {Email: "b@x.com"}]`, allocation
`[(ListX, 2)]` and an always-succeeding upsert, 1 processed row and
2 retained rows.  This is false on the code: the empty-email skip does not
consume quota, so record 3 is also reached and upserted — processed has
2 rows and retained has 1. -/
theorem end_to_end_scenario_cex :
    ¬ ((allocate uOk "2026-10-12" [("ListX", 2)]
          [[("Email", "a@x.com")], [("Email", "")], [("Email", "b@x.com")]]).1.length = 1 ∧
        (allocate uOk "2026-10-12" [("ListX", 2)]
          [[("Email", "a@x.com")], [("Email", "")], [("Email", "b@x.com")]]).2.length = 2) := by
  decide

/-- C2 (amended): for the queue `[{Email: "a@x.com"}, {Email: ""},
{Email: "b@x.com"}]`, allocation `[(ListX, 2)]` and an always-succeeding
upsert: records 1 and 3 are upserted and processed with status
"Successfully added on <today's date> to ListX" (the skipped record does not
consume quota, so record 3 is reached); record 2 is retained with status
"Skipped: No Email"; processed has 2 rows and retained 1. -/
theorem end_to_end_scenario_actual :
    allocate uOk "2026-10-12" [("ListX", 2)]
        [[("Email", "a@x.com")], [("Email", "")], [("Email", "b@x.com")]] =
      ([[("Email", "a@x.com"), ("Status", "Successfully added on 2026-10-12 to ListX")],
        [("Email", "b@x.com"), ("Status", "Successfully added on 2026-10-12 to ListX")]],
       [[("Email", ""), ("Status", "Skipped: No Email")]]) := by
  decide

/-- C3: the claim states that rows excluded by the precondition filter
(status beginning "Successfully added") are still present in the source
table after the run's final overwrite.  This is false on the code: the
source sheet is rebuilt from `updated_rows_source` alone, which is built
only from the filtered queue, so the excluded row disappears — here the
rewritten source is empty although the (non-empty) input had one excluded
row. -/
theorem excluded_rows_dropped_cex :
    process_contacts uOk "2026-10-12" ["Email", "Status"]
        [[("Email", "x@x.com"), ("Status", "Successfully added on 2020-01-01 to L")]] [] =
      some ([], []) ∧
    ¬ ([[("Email", "x@x.com"), ("Status", "Successfully added on 2020-01-01 to L")]] :
        List Record) = [] := by
  decide

/-- C3 (amended): rows excluded by the precondition filter appear in neither
output partition, but they are not left in the source store: the final
overwrite rebuilds the source table from the retained records of the
filtered queue only (|processed| + |new source rows| = |filtered queue|, and
every rewritten source row is the serialization of a filtered-queue record,
possibly with its Status rewritten), so the excluded rows are removed. -/
theorem excluded_rows_removed
    (u : String → String → List (String × String) → Except String String)
    (today : String) (headers : List String) (rows : List Record)
    (allocs : List (String × Nat)) (h : ¬ rows = []) :
    ∃ pSer src : List (List String),
      process_contacts u today headers rows allocs = some (pSer, src) ∧
      pSer.length + src.length = (rows.filter keepRow).length ∧
      ∀ row ∈ src, ∃ r, r ∈ rows.filter keepRow ∧
        ∃ r' : Record, (r' = r ∨ ∃ v, r' = Record.set r "Status" v) ∧
          row = serializeRow headers r' := by
  refine ⟨(allocate u today allocs (rows.filter keepRow)).1.map (serializeRow headers),
    (allocate u today allocs (rows.filter keepRow)).2.map (serializeRow headers), ?_, ?_, ?_⟩
  · simp [process_contacts, h]
  · have hlen := processAllocations_length u today allocs (rows.filter keepRow)
    simp only [allocate, List.length_map, List.length_append]
    omega
  · intro row hrow
    obtain ⟨r', hr', hser⟩ := List.mem_map.1 hrow
    simp only [allocate, List.mem_append] at hr'
    rcases hr' with hr' | hr'
    · obtain ⟨r, hrq, v, hv⟩ := processAllocations_mem u today allocs (rows.filter keepRow) r'
        (Or.inr hr')
      exact ⟨r, hrq, r', Or.inr ⟨v, hv⟩, hser.symm⟩
    · obtain ⟨pre, hsplit, -⟩ := processAllocations_split u today allocs (rows.filter keepRow)
      refine ⟨r', ?_, r', Or.inl rfl, hser.symm⟩
      rw [hsplit]
      exact List.mem_append_right pre hr'

theorem excluded_rows_removed_witness :
    ¬ ([[("Email", "a@x.com")]] : List Record) = [] ∧
    ∃ pSer src : List (List String),
      process_contacts uOk "2026-10-12" ["Email", "Status"] [[("Email", "a@x.com")]] [("L", 1)] =
        some (pSer, src) ∧
      pSer.length + src.length =
        (([[("Email", "a@x.com")]] : List Record).filter keepRow).length ∧
      ∀ row ∈ src, ∃ r, r ∈ ([[("Email", "a@x.com")]] : List Record).filter keepRow ∧
        ∃ r' : Record, (r' = r ∨ ∃ v, r' = Record.set r "Status" v) ∧
          row = serializeRow ["Email", "Status"] r' :=
  ⟨by decide,
    excluded_rows_removed uOk "2026-10-12" ["Email", "Status"] [[("Email", "a@x.com")]]
      [("L", 1)] (by decide)⟩

/-- C4: conservation — |processed| + |retained| + |excluded| equals the
number of source rows, and (up to the allocator's Status edits, captured by
`stripStatus`) the multiset of source rows is exactly the disjoint union of
the processed partition, the retained partition and the excluded rows:
nothing is duplicated or silently dropped. -/
theorem conservation_partition
    (u : String → String → List (String × String) → Except String String)
    (today : String) (rows : List Record) (allocs : List (String × Nat)) :
    (allocate u today allocs (rows.filter keepRow)).1.length +
      (allocate u today allocs (rows.filter keepRow)).2.length +
      (rows.filter (fun r => !(keepRow r))).length = rows.length ∧
    (rows.map stripStatus).Perm
      ((allocate u today allocs (rows.filter keepRow)).1.map stripStatus ++
        ((allocate u today allocs (rows.filter keepRow)).2.map stripStatus ++
          (rows.filter (fun r => !(keepRow r))).map stripStatus)) := by
  constructor
  · have h1 := (List.filter_append_perm keepRow rows).length_eq
    have h2 := processAllocations_length u today allocs (rows.filter keepRow)
    simp only [List.length_append] at h1
    simp only [allocate, List.length_append]
    omega
  · have hq := processAllocations_perm_full u today allocs (rows.filter keepRow)
    have hrows : (rows.map stripStatus).Perm
        ((rows.filter keepRow).map stripStatus ++
          (rows.filter (fun r => !(keepRow r))).map stripStatus) := by
      have := ((List.filter_append_perm keepRow rows).symm).map stripStatus
      simpa [List.map_append] using this
    refine hrows.trans ?_
    have := hq.append_right ((rows.filter (fun r => !(keepRow r))).map stripStatus)
    simpa [allocate, List.map_append, List.append_assoc] using this

/-- C6: the claim states that every queue record with an empty trimmed email
gets Status "Skipped: No Email".  This is false on the code when the record
is never consumed (quota exhausted): with allocation `[(L, 0)]` the
empty-email record is retained unchanged, its Status still "old". -/
theorem skip_zero_quota_cex :
    (allocate uOk "2026-10-12" [("L", 0)] [[("Email", ""), ("Status", "old")]]).2 =
        [[("Email", ""), ("Status", "old")]] ∧
    pyStrip (Record.get ([("Email", ""), ("Status", "old")] : Record) "Email") = "" ∧
    ¬ Record.get ([("Email", ""), ("Status", "old")] : Record) "Status" = skipMsg := by
  decide

/-- C6 (amended): for every record the allocator *consumes*: a consumed
record placed in `processed` always has a non-empty trimmed email (so an
empty-email record is never upserted and never processed); a consumed record
retained with an empty trimmed email always carries Status
"Skipped: No Email"; and the run's outcome is unchanged if the upsert
capability is replaced by one that agrees with it on all non-empty emails —
i.e. upsert is never invoked with the (empty) email of a skipped record.
Records beyond the quota are retained unchanged, without the skip status. -/
theorem skip_handling_consumed
    (u : String → String → List (String × String) → Except String String)
    (today : String) (allocs : List (String × Nat)) (q : List Record) :
    (∀ r' ∈ (processAllocations u today allocs q).2.1,
        ¬ pyStrip (Record.get r' "Email") = "") ∧
    (∀ r' ∈ (processAllocations u today allocs q).2.2,
        pyStrip (Record.get r' "Email") = "" → Record.get r' "Status" = skipMsg) ∧
    (∀ u', (∀ e l f, ¬ e = "" → u e l f = u' e l f) →
        processAllocations u today allocs q = processAllocations u' today allocs q) :=
  ⟨processAllocations_processed_email u today allocs q,
    processAllocations_retained_skip u today allocs q,
    fun u' h => processAllocations_congr u u' h today allocs q⟩

theorem skip_handling_consumed_witness :
    Record.get ([("Email", ""), ("Status", "Skipped: No Email")] : Record) "Status" = skipMsg :=
  (skip_handling_consumed uOk "2026-10-12" [("L", 1)] [[("Email", "")]]).2.1
    [("Email", ""), ("Status", "Skipped: No Email")] (by decide) (by decide)

/-- C7: failure isolation — for a queue `[A, B, C]` and a single list with
quota 3, if the upsert call fails for B (raising an error with message
`eB`) but succeeds for A and C, then A and C end up in `processed`, B is
retained with status "Error: <eB>", and the run completes the whole
allocation request. -/
theorem failure_isolation
    (u : String → String → List (String × String) → Except String String)
    (lid today : String) (A B C : Record) (vA vC eB : String)
    (hAe : ¬ pyStrip (Record.get A "Email") = "")
    (hBe : ¬ pyStrip (Record.get B "Email") = "")
    (hCe : ¬ pyStrip (Record.get C "Email") = "")
    (hA : u (pyStrip (Record.get A "Email")) lid (buildFieldValues A) = Except.ok vA)
    (hB : u (pyStrip (Record.get B "Email")) lid (buildFieldValues B) = Except.error eB)
    (hC : u (pyStrip (Record.get C "Email")) lid (buildFieldValues C) = Except.ok vC) :
    allocate u today [(lid, 3)] [A, B, C] =
      ([Record.set A "Status" (successMsg today lid),
        Record.set C "Status" (successMsg today lid)],
       [Record.set B "Status" (errorMsg eB)]) := by
  simp [allocate, processAllocations, processList, hAe, hBe, hCe, hA, hB, hC]

theorem failure_isolation_witness :
    allocate uFailB "2026-10-12" [("L", 3)]
        [[("Email", "a@x.com")], [("Email", "b@x.com")], [("Email", "c@x.com")]] =
      ([Record.set [("Email", "a@x.com")] "Status" (successMsg "2026-10-12" "L"),
        Record.set [("Email", "c@x.com")] "Status" (successMsg "2026-10-12" "L")],
       [Record.set [("Email", "b@x.com")] "Status" (errorMsg "boom")]) :=
  failure_isolation uFailB "L" "2026-10-12" [("Email", "a@x.com")] [("Email", "b@x.com")]
    [("Email", "c@x.com")] "" "" "boom" (by decide) (by decide) (by decide)
    (by rfl) (by rfl) (by rfl)

/-- C9: the allocator mutates only the Status field — every record appearing
in `processed` or `retained` agrees with some record of the input queue on
every field other than Status. -/
theorem only_status_mutated
    (u : String → String → List (String × String) → Except String String)
    (today : String) (allocs : List (String × Nat)) (q : List Record) (r' : Record)
    (h : r' ∈ (allocate u today allocs q).1 ∨ r' ∈ (allocate u today allocs q).2) :
    ∃ r, r ∈ q ∧ ∀ k, ¬ k = "Status" → Record.get r' k = Record.get r k := by
  have h' : r' ∈ (processAllocations u today allocs q).2.1 ∨
      r' ∈ (processAllocations u today allocs q).2.2 ∨
      r' ∈ (processAllocations u today allocs q).1 := by
    simpa [allocate, List.mem_append, or_assoc] using h
  rcases h' with h' | h' | h'
  · obtain ⟨r, hr, v, hv⟩ := processAllocations_mem u today allocs q r' (Or.inl h')
    exact ⟨r, hr, fun k hk => by rw [hv, Record.get_set_ne r "Status" k v hk]⟩
  · obtain ⟨r, hr, v, hv⟩ := processAllocations_mem u today allocs q r' (Or.inr h')
    exact ⟨r, hr, fun k hk => by rw [hv, Record.get_set_ne r "Status" k v hk]⟩
  · obtain ⟨pre, hsplit, -⟩ := processAllocations_split u today allocs q
    refine ⟨r', ?_, fun k hk => rfl⟩
    rw [hsplit]
    exact List.mem_append_right pre h'

theorem only_status_mutated_witness :
    ∃ r, r ∈ ([[("Email", "a@x.com"), ("First Name", "Ann")]] : List Record) ∧
      ∀ k, ¬ k = "Status" →
        Record.get ([("Email", "a@x.com"), ("First Name", "Ann"),
          ("Status", "Successfully added on 2026-10-12 to L")] : Record) k =
          Record.get r k :=
  only_status_mutated uOk "2026-10-12" [("L", 1)]
    [[("Email", "a@x.com"), ("First Name", "Ann")]]
    [("Email", "a@x.com"), ("First Name", "Ann"),
      ("Status", "Successfully added on 2026-10-12 to L")]
    (Or.inl (by decide))

/-- C10: the retained output is an order-preserving subsequence of the input
queue up to the allocator's Status edits: there is a sublist of the queue
that corresponds pointwise (identity or a Status rewrite) to `retained`, so
any two retained records keep the relative order they had in the queue. -/
theorem retained_order_preserved
    (u : String → String → List (String × String) → Except String String)
    (today : String) (allocs : List (String × Nat)) (q : List Record) :
    ∃ sub : List Record, sub.Sublist q ∧
      List.Forall₂ statusEdit sub (allocate u today allocs q).2 := by
  obtain ⟨pre, sub, hsplit, hsub, hfa⟩ := processAllocations_sub u today allocs q
  refine ⟨sub ++ (processAllocations u today allocs q).1, ?_, ?_⟩
  · have hstep : (sub ++ (processAllocations u today allocs q).1).Sublist
        (pre ++ (processAllocations u today allocs q).1) :=
      hsub.append (List.Sublist.refl _)
    rw [← hsplit] at hstep
    exact hstep
  · simp only [allocate]
    exact List.rel_append hfa (List.forall₂_same.2 (fun x _ => statusEdit_refl x))
